/-
Verification of the phone-number OSINT backend core (backend/utils.py)
against its natural-language specification.

The Python source is shallowly embedded: pure helpers become Lean
functions, the file-backed cache becomes explicit state passing over an
association list, machine floats become exact rationals (ℚ), time.time()
values become integers, and fallible calls return explicit result types.
External collaborators (the HTTP transport, PhoneNumberMatcher, the
network) are modelled as oracle inputs.
-/
import Mathlib

set_option linter.unusedVariables false

namespace PhoneOsint

/-! # Definitions

## Python string primitives

`strHasSub s pat` models Python's substring containment `pat in s`;
`String.startsWith` models `str.startswith`; `String.toLower` models
`str.lower()` (ASCII-faithful). -/

/-- Does `p` occur at the head of `l`? (Python `l[:len p] == p`.) -/
def matchesAt : List Char → List Char → Bool
  | [], _ => true
  | _ :: _, [] => false
  | a :: p, b :: l => a == b && matchesAt p l

/-- Does `p` occur contiguously anywhere in `l`? -/
def subAux (p : List Char) : List Char → Bool
  | [] => p.isEmpty
  | c :: t => matchesAt p (c :: t) || subAux p t

/-- Python `pat in s` (substring containment). -/
def strHasSub (s pat : String) : Bool := subAux pat.data s.data

/-- Python `s.startswith(pre)`. -/
def pyStartsWith (s pre : String) : Bool := matchesAt pre.data s.data

/-- Python `s.lower()` (ASCII-faithful per-character lowering). -/
def pyLower (s : String) : String := ⟨s.data.map Char.toLower⟩

/-! ## TTL cache (backend/utils.py: `cache_get` / `cache_set`)

The JSON cache file is a map `key -> {"ts": ..., "data": ...}`; we embed
it as an association list with unique keys, the record timestamp as ℤ
(seconds), and `time.time()` passed explicitly as `now`. -/

/-- Constant `CACHE_TTL = 7 * 24 * 3600` (7 days, in seconds). -/
def CACHE_TTL : ℤ := 7 * 24 * 3600

/-- One cache record `{"ts": ts, "data": data}`. -/
structure CacheRec (α : Type) where
  ts : ℤ
  data : α
  deriving Repr, DecidableEq

/-- The cache file contents: a key-value map, embedded as a list of
bindings with distinct keys (Python `dict`). -/
abbrev Cache (α : Type) : Type := List (String × CacheRec α)

/-- Python `d.get(key)`: the binding of `k`, if any. -/
def cacheLookup {α : Type} (d : Cache α) (k : String) : Option (CacheRec α) :=
  (List.find? (fun p => p.1 == k) d).map (fun p => p.2)

/-- Python `d.pop(key, None)`: remove the binding of `k`. -/
def cacheErase {α : Type} (d : Cache α) (k : String) : Cache α :=
  List.filter (fun p => !(p.1 == k)) d

/-- Embedding of `cache_get` (utils.py lines 56-65): returns the stored data when the
record is younger than `CACHE_TTL`, otherwise evicts it and returns
`None`.  The (possibly modified) backing store is returned alongside. -/
def cache_get {α : Type} (now : ℤ) (d : Cache α) (key : String) :
    Option α × Cache α :=
  match cacheLookup d key with
  | none => (none, d)
  | some rec =>
    if now - rec.ts > CACHE_TTL then (none, cacheErase d key)
    else (some rec.data, d)

/-- Embedding of `cache_set` (utils.py lines 67-70): unconditionally overwrite `key`
with `{"ts": now, "data": data}`. -/
def cache_set {α : Type} (now : ℤ) (d : Cache α) (key : String) (data : α) :
    Cache α :=
  cacheErase d key ++ [(key, ⟨now, data⟩)]

/-! ## Reputation aggregator (utils.py: `heuristics_score`,
`aggregate_reputation`)

Python floats become exact rationals.  A provider payload is embedded as
the fields the source actually reads; `dict.get` of a missing key is
`Option.getD` over `none`, and Python's `x or ""` collapse of falsy
values coincides with `getD ""` for string-or-absent fields. -/

/-- The numverify payload fields read by `heuristics_score`. -/
structure NumverifyPayload where
  line_type : Option String
  carrier : Option String
  international : Option String
  e164 : Option String
  deriving Repr, DecidableEq

/-- The empty payload `{}` (also what `numverify or {}` yields for a
falsy payload). -/
def emptyNV : NumverifyPayload := ⟨none, none, none, none⟩

/-- Computes `lt = (numverify.get("line_type") or "").lower()`. -/
def ltOf (nv : NumverifyPayload) : String := pyLower (nv.line_type.getD "")

/-- Computes `carrier = (numverify.get("carrier") or "").lower()`. -/
def carrierOf (nv : NumverifyPayload) : String := pyLower (nv.carrier.getD "")

/-- Computes `e164 = (numverify.get("international") or "") or (numverify.get("e164") or "")`. -/
def e164Of (nv : NumverifyPayload) : String :=
  let a := nv.international.getD ""
  if !(a == "") then a else nv.e164.getD ""

/-- Constant `suspicious_carrier_keywords` (utils.py line 142). -/
def suspicious_carrier_keywords : List String :=
  ["premium", "scam", "telemarketing", "spam"]

/-- Embedding of `heuristics_score` (utils.py lines 124-152): elif-chain over the
line type, a max-raise to 70 for suspicious carrier keywords, and a
+30 raise (capped at 100) for the `+91140` prefix. -/
def heuristics_score (numverify : NumverifyPayload) : ℚ :=
  let score : ℚ := 0
  let lt := ltOf numverify
  let carrier := carrierOf numverify
  let score :=
    if strHasSub lt "premium rate" || strHasSub lt "premium_rate" then
      max score 90
    else if strHasSub lt "satellite" then max score 80
    else if strHasSub lt "voip" then max score 45
    else if strHasSub lt "unknown" || lt == "" then max score 30
    else if strHasSub lt "mobile" then max score 10
    else if strHasSub lt "landline" then max score 5
    else score
  let score := suspicious_carrier_keywords.foldl
    (fun s kw => if strHasSub carrier kw then max s 70 else s) score
  let e164 := e164Of numverify
  let score := if pyStartsWith e164 "+91140" then min 100 (score + 30) else score
  score

/-- Spec-side reading of the line-type lookup table: the HIGHEST
applicable base score (premium-rate 90, satellite 80, VoIP 45,
unknown/blank 30, mobile 10, landline 5), 0 when none applies. -/
def lineTypeBest (lt : String) : ℚ :=
  max (if strHasSub lt "premium rate" || strHasSub lt "premium_rate" then 90 else 0)
  (max (if strHasSub lt "satellite" then 80 else 0)
  (max (if strHasSub lt "voip" then 45 else 0)
  (max (if strHasSub lt "unknown" || lt == "" then 30 else 0)
  (max (if strHasSub lt "mobile" then 10 else 0)
       (if strHasSub lt "landline" then 5 else 0)))))

/-- Spec-side reading of the carrier rule: floor 70 when any spam
keyword occurs in the carrier name, 0 otherwise. -/
def carrierBest (carrier : String) : ℚ :=
  if suspicious_carrier_keywords.any (fun kw => strHasSub carrier kw) then 70
  else 0

/-- The state of one optional numeric field of a provider payload
(`fraud["fraud_score"]`, `tellows["score"]`): the key may be absent (or
the payload not a dict), present but not parseable by `float(...)`, or
present with a parsed numeric value. -/
inductive ScoreField where
  | absent
  | malformed
  | numeric (q : ℚ)
  deriving Repr, DecidableEq

/-- Is the field a parseable numeric score? -/
def ScoreField.isNum : ScoreField → Bool
  | .numeric _ => true
  | _ => false

/-- One entry of the `sources` dict: name, score, configured weight. -/
structure Source where
  name : String
  score : ℚ
  weight : ℚ
  deriving Repr, DecidableEq

/-- The `sources` dict built by `aggregate_reputation` (utils.py lines
165-189), in insertion order: heuristics always; fraudscore/tellows only
when their payload carries a parseable numeric field; user reports only
when the count is positive. -/
def fusionSources (numverify : Option NumverifyPayload)
    (fraud tellows : ScoreField) (user_report_count : ℤ) : List Source :=
  [⟨"heuristics", heuristics_score (numverify.getD emptyNV), 7/10⟩]
  ++ (match fraud with
      | .numeric f => [⟨"fraudscore", f, 2/10⟩]
      | _ => [])
  ++ (match tellows with
      | .numeric t => [⟨"tellows", (t - 1) / 8 * 100, 1/10⟩]
      | _ => [])
  ++ (if user_report_count > 0 then
        [⟨"user_reports", min 90 ((user_report_count : ℚ) * 30), 3/10⟩]
      else [])

/-- Computes `total_weight = sum(...) or 1.0` (utils.py line 192). -/
def totalWeight (sources : List Source) : ℚ :=
  let s := (sources.map (fun v => v.weight)).sum
  if s = 0 then 1 else s

/-- Computes `overall = sum(v["score"] * (v["weight"] / total_weight) ...)`
(utils.py line 193). -/
def overallExpr (sources : List Source) : ℚ :=
  (sources.map (fun v => v.score * (v.weight / totalWeight sources))).sum

/-- The label if-chain (utils.py lines 194-198). -/
def labelOf (overall : ℚ) : String :=
  if overall ≥ 75 then "spam"
  else if overall ≥ 40 then "suspicious"
  else "clean"

/-- Spec-side severity order on labels, for stating monotonicity. -/
def labelRank (label : String) : ℕ :=
  if label == "spam" then 2 else if label == "suspicious" then 1 else 0

/-- The integer `10 * round(q, 1)` under Python's round-half-to-even. -/
def pyRound1Int (q : ℚ) : ℤ :=
  let x := 10 * q
  let n : ℤ := ⌊x⌋
  let frac := x - (n : ℚ)
  if frac < 1/2 then n
  else if frac > 1/2 then n + 1
  else if n % 2 = 0 then n else n + 1

/-- Python `round(q, 1)` (banker's rounding to one decimal place). -/
def pyRound1 (q : ℚ) : ℚ := (pyRound1Int q : ℚ) / 10

/-- The returned reputation record (breakdown keeps insertion order and
the original, non-renormalized weights). -/
structure ReputationResult where
  score : ℚ
  label : String
  breakdown : List (String × ℚ × ℚ)
  deriving Repr, DecidableEq

/-- Embedding of `aggregate_reputation` (utils.py lines 155-201).  `number` and
`twilio` are accepted and ignored, as in the source. -/
def aggregate_reputation (number : String)
    (numverify : Option NumverifyPayload) (fraud : ScoreField)
    (twilio : ScoreField) (tellows : ScoreField)
    (user_report_count : ℤ) : ReputationResult :=
  let sources := fusionSources numverify fraud tellows user_report_count
  let overall := overallExpr sources
  { score := pyRound1 overall
    label := labelOf overall
    breakdown := sources.map (fun v => (v.name, v.score, v.weight)) }

/-! ## Number extraction (utils.py: `extract_numbers_from_text`)

`phonenumbers.PhoneNumberMatcher` is an external library; its output is
modelled as the input list of matches, each carrying the raw matched
substring and the result of `format_number(match.number, E164)` —
`some s` on success, `none` when formatting raises. -/

/-- One matcher hit: the raw substring and the optional E.164 form. -/
structure PNMatch where
  raw_string : String
  e164 : Option String
  deriving Repr, DecidableEq

/-- The string appended for one match (utils.py lines 243-247): the
E.164 form when canonicalization succeeds, the raw substring when it
raises. -/
def matchResult (m : PNMatch) : String :=
  match m.e164 with
  | some s => s
  | none => m.raw_string

/-- The `results` list before de-duplication (utils.py lines 242-247). -/
def rawResults (ms : List PNMatch) : List String := ms.map matchResult

/-- The `seen`/`out` de-duplication loop (utils.py lines 249-254):
`seen` collects the strings already emitted. -/
def uniqueAux (seen : List String) : List String → List String
  | [] => []
  | n :: rest =>
    if seen.contains n then uniqueAux seen rest
    else n :: uniqueAux (n :: seen) rest

/-- The "unique preserve order" loop (utils.py lines 248-254). -/
def uniquePreserveOrder (l : List String) : List String := uniqueAux [] l

/-- Embedding of `extract_numbers_from_text` (utils.py lines 234-255), as a function
of the matcher's output.  An empty text yields no matches, hence `[]`. -/
def extract_numbers_from_text (ms : List PNMatch) : List String :=
  uniquePreserveOrder (rawResults ms)

/-- Spec-side first-seen de-duplication: keep each string's first
occurrence, drop every later identical occurrence. -/
def firstSeenDedup : List String → List String
  | [] => []
  | x :: xs => x :: firstSeenDedup (xs.filter (fun y => !(y == x)))
termination_by l => l.length
decreasing_by
  simp only [List.length_cons]
  exact Nat.lt_succ_of_le (List.length_filter_le _ _)

/-! ## Provider adapters (utils.py: `call_numverify` and placeholders)

The cached value for a `"numverify:<number>"` key is either the
provider's JSON object or the error dict `{"error": msg}`.  The network
(`requests.get` + `raise_for_status` + `.json()`) is an oracle: it
either yields a parsed object or raises with message `msg`. -/

/-- A value stored in the numverify slot of the cache. -/
inductive NVData where
  | json (fields : List (String × String))
  | errorDict (msg : String)
  deriving Repr, DecidableEq

/-- Python truthiness of the cached dict: an empty dict is falsy, an
error dict `{"error": msg}` has one key and is truthy. -/
def NVData.isTruthy : NVData → Bool
  | .json fields => !fields.isEmpty
  | .errorDict _ => true

/-- Outcome of the outbound HTTP call for a given number. -/
inductive NetOutcome where
  | ok (fields : List (String × String))
  | exn (msg : String)

/-- The part of `call_numverify` after the cache check (utils.py lines
80-90): missing credential short-circuits with the error marker and no
cache write; otherwise the network outcome (success payload or caught
exception dict) is written to the cache and returned. -/
def numverifyFetch (numverify_key : String) (net : String → NetOutcome)
    (now : ℤ) (number : String) (c : Cache NVData) : NVData × Cache NVData :=
  if numverify_key == "" then (.errorDict "NUMVERIFY_KEY not set", c)
  else
    let data : NVData :=
      match net number with
      | .ok fields => .json fields
      | .exn e => .errorDict e
    (data, cache_set now c ("numverify:" ++ number) data)

/-- Embedding of `call_numverify` (utils.py lines 74-90): consult the cache under
`"numverify:<number>"`; a truthy cached value is returned as-is,
otherwise fall through to `numverifyFetch`. -/
def call_numverify (numverify_key : String) (net : String → NetOutcome)
    (now : ℤ) (number : String) (c : Cache NVData) : NVData × Cache NVData :=
  let key := "numverify:" ++ number
  let res := cache_get now c key
  match res.1 with
  | some v =>
    if v.isTruthy then (v, res.2)
    else numverifyFetch numverify_key net now number res.2
  | none => numverifyFetch numverify_key net now number res.2

/-- Embedding of `call_fraudscore` (utils.py lines 92-94): constant placeholder. -/
def call_fraudscore (number : String) : List (String × String) :=
  [("note", "fraudscore_not_configured")]

/-- Embedding of `call_twilio_lookup` (utils.py lines 96-98): constant placeholder. -/
def call_twilio_lookup (number : String) : List (String × String) :=
  [("note", "twilio_not_configured")]

/-- Embedding of `call_tellows` (utils.py lines 100-102): constant placeholder. -/
def call_tellows (number : String) : List (String × String) :=
  [("note", "tellows_not_configured")]

/-! # Theorems

## Cache lemmas and C1 -/

theorem cacheLookup_set_self {α : Type} (now : ℤ) (d : Cache α) (k : String)
    (v : α) : cacheLookup (cache_set now d k v) k = some ⟨now, v⟩ := by
  unfold cache_set cacheErase cacheLookup
  induction d with
  | nil => simp
  | cons a t ih =>
    by_cases h : a.1 = k
    · simp [h]
    · simp [h]

theorem cacheLookup_erase_self {α : Type} (d : Cache α) (k : String) :
    cacheLookup (cacheErase d k) k = none := by
  unfold cacheErase cacheLookup
  induction d with
  | nil => simp
  | cons a t ih =>
    by_cases h : a.1 = k
    · simp [h]
    · simp [h]

theorem not_mem_cacheErase_self {α : Type} (d : Cache α) (k : String)
    (r : CacheRec α) : (k, r) ∉ cacheErase d k := by
  intro hmem
  have := (List.mem_filter.mp hmem).2
  simp at this

/-- Claim C1: Cache TTL correctness: after `cache_set k v` at time `t`, a
`cache_get k` at time `now` with `now - t ≤ CACHE_TTL` returns exactly
`v`; with `now - t > CACHE_TTL` it returns absent (`none`) and as a side
effect removes `k` from the backing store, so `k` has no binding in (and
no pair keyed `k` appears in any iteration over) the resulting store. -/
theorem cache_ttl_correct {α : Type} (d : Cache α) (k : String) (v : α)
    (t now : ℤ) :
    (now - t ≤ CACHE_TTL →
      (cache_get now (cache_set t d k v) k).1 = some v) ∧
    (now - t > CACHE_TTL →
      (cache_get now (cache_set t d k v) k).1 = none ∧
      cacheLookup (cache_get now (cache_set t d k v) k).2 k = none ∧
      ∀ r : CacheRec α, (k, r) ∉ (cache_get now (cache_set t d k v) k).2) := by
  constructor
  · intro h
    simp [cache_get, cacheLookup_set_self, not_lt.mpr h]
  · intro h
    simp only [cache_get, cacheLookup_set_self, h, if_pos]
    refine ⟨trivial, cacheLookup_erase_self _ _, fun r => not_mem_cacheErase_self _ _ _⟩

/-- Witness for C1 at a concrete store: key `"k"`, value `5`, stored at
time `0`, read at times `604800` (fresh) and `604801` (expired). -/
theorem cache_ttl_correct_witness :
    (cache_get 604800 (cache_set 0 ([] : Cache ℕ) "k" 5) "k").1 = some 5 ∧
    (cache_get 604801 (cache_set 0 ([] : Cache ℕ) "k" 5) "k").1 = none ∧
    cacheLookup (cache_get 604801 (cache_set 0 ([] : Cache ℕ) "k" 5) "k").2 "k"
      = none := by
  refine ⟨(cache_ttl_correct [] "k" 5 0 604800).1 (by decide),
    ((cache_ttl_correct [] "k" 5 0 604801).2 (by decide)).1,
    ((cache_ttl_correct [] "k" 5 0 604801).2 (by decide)).2.1⟩

/-! ## Structural lemmas about the heuristic scorer -/

theorem chain_eq_max_aux (b1 b2 b3 b4 b5 b6 : Bool) :
    (if b1 then max (0:ℚ) 90
     else if b2 then max 0 80
     else if b3 then max 0 45
     else if b4 then max 0 30
     else if b5 then max 0 10
     else if b6 then max 0 5
     else 0)
    = max (if b1 then (90:ℚ) else 0)
      (max (if b2 then 80 else 0)
      (max (if b3 then 45 else 0)
      (max (if b4 then 30 else 0)
      (max (if b5 then 10 else 0)
           (if b6 then 5 else 0))))) := by
  cases b1 <;> cases b2 <;> cases b3 <;> cases b4 <;> cases b5 <;> cases b6 <;>
    norm_num [max_def]

theorem chain_eq_lineTypeBest (lt : String) :
    (if strHasSub lt "premium rate" || strHasSub lt "premium_rate" then
       max (0:ℚ) 90
     else if strHasSub lt "satellite" then max 0 80
     else if strHasSub lt "voip" then max 0 45
     else if strHasSub lt "unknown" || lt == "" then max 0 30
     else if strHasSub lt "mobile" then max 0 10
     else if strHasSub lt "landline" then max 0 5
     else 0) = lineTypeBest lt := by
  unfold lineTypeBest
  exact chain_eq_max_aux _ _ _ _ _ _

theorem foldOr (l : List Bool) (s : ℚ) (hs : 0 ≤ s) :
    l.foldl (fun a b => if b then max a 70 else a) s
      = max s (if l.any id then 70 else 0) := by
  induction l generalizing s with
  | nil => simp [eq_comm, max_eq_left hs]
  | cons b t ih =>
    cases b
    · simpa using ih s hs
    · have h70 : (0:ℚ) ≤ max s 70 := le_trans hs (le_max_left s 70)
      simp only [List.foldl_cons, if_pos rfl, List.any_cons, id, Bool.true_or,
        if_pos]
      rw [ih (max s 70) h70, max_assoc]
      congr 1
      split_ifs <;> norm_num [max_def]

theorem foldKw_eq (carrier : String) (s : ℚ) (hs : 0 ≤ s) :
    suspicious_carrier_keywords.foldl
      (fun a kw => if strHasSub carrier kw then max a 70 else a) s
    = max s (carrierBest carrier) := by
  unfold carrierBest
  have hmap := List.foldl_map (strHasSub carrier)
    (fun (a : ℚ) b => if b then max a 70 else a) suspicious_carrier_keywords s
  rw [← hmap, foldOr _ s hs]
  simp [List.any_map, Function.comp]

theorem lineTypeBest_nonneg (lt : String) : 0 ≤ lineTypeBest lt := by
  unfold lineTypeBest
  split_ifs <;> norm_num [le_max_iff]

theorem lineTypeBest_le (lt : String) : lineTypeBest lt ≤ 90 := by
  unfold lineTypeBest
  split_ifs <;> norm_num [max_le_iff]

theorem carrierBest_nonneg (c : String) : 0 ≤ carrierBest c := by
  unfold carrierBest
  split_ifs <;> norm_num

theorem carrierBest_le (c : String) : carrierBest c ≤ 70 := by
  unfold carrierBest
  split_ifs <;> norm_num

/-- Rewrites `heuristics_score` in closed form: the best line-type score and the
carrier floor max-combined, then the bad-prefix raise capped at 100. -/
theorem heuristics_score_eq (nv : NumverifyPayload) :
    heuristics_score nv =
      if pyStartsWith (e164Of nv) "+91140" then
        min 100 (max (lineTypeBest (ltOf nv)) (carrierBest (carrierOf nv)) + 30)
      else max (lineTypeBest (ltOf nv)) (carrierBest (carrierOf nv)) := by
  have h0 : (0:ℚ) ≤ lineTypeBest (ltOf nv) := lineTypeBest_nonneg _
  simp only [heuristics_score]
  rw [chain_eq_lineTypeBest, foldKw_eq _ _ h0]

theorem heuristics_score_bounds (nv : NumverifyPayload) :
    0 ≤ heuristics_score nv ∧ heuristics_score nv ≤ 100 := by
  rw [heuristics_score_eq]
  have h1 := lineTypeBest_nonneg (ltOf nv)
  have h2 := lineTypeBest_le (ltOf nv)
  have h3 := carrierBest_nonneg (carrierOf nv)
  have h4 := carrierBest_le (carrierOf nv)
  have hB0 : (0:ℚ) ≤ max (lineTypeBest (ltOf nv)) (carrierBest (carrierOf nv)) :=
    le_trans h1 (le_max_left _ _)
  have hB : max (lineTypeBest (ltOf nv)) (carrierBest (carrierOf nv)) ≤ 90 :=
    max_le h2 (le_trans h4 (by norm_num))
  constructor
  · split_ifs with h
    · exact le_min (by norm_num) (by linarith)
    · exact hB0
  · split_ifs with h
    · exact le_trans (min_le_left _ _) (by norm_num)
    · linarith

theorem max_int {x y : ℚ} (hx : ∃ m : ℤ, x = (m : ℚ))
    (hy : ∃ m : ℤ, y = (m : ℚ)) : ∃ m : ℤ, max x y = (m : ℚ) := by
  obtain ⟨a, rfl⟩ := hx
  obtain ⟨b, rfl⟩ := hy
  exact ⟨max a b, (Int.cast_max).symm⟩

theorem ite_int {a b : ℚ} (c : Prop) [Decidable c] (ha : ∃ m : ℤ, a = (m : ℚ))
    (hb : ∃ m : ℤ, b = (m : ℚ)) : ∃ m : ℤ, (if c then a else b) = (m : ℚ) := by
  split_ifs
  exacts [ha, hb]

theorem lineTypeBest_int (lt : String) :
    ∃ m : ℤ, lineTypeBest lt = (m : ℚ) := by
  unfold lineTypeBest
  exact max_int (ite_int _ ⟨90, by norm_num⟩ ⟨0, by norm_num⟩)
    (max_int (ite_int _ ⟨80, by norm_num⟩ ⟨0, by norm_num⟩)
    (max_int (ite_int _ ⟨45, by norm_num⟩ ⟨0, by norm_num⟩)
    (max_int (ite_int _ ⟨30, by norm_num⟩ ⟨0, by norm_num⟩)
    (max_int (ite_int _ ⟨10, by norm_num⟩ ⟨0, by norm_num⟩)
             (ite_int _ ⟨5, by norm_num⟩ ⟨0, by norm_num⟩)))))

theorem carrierBest_int (c : String) : ∃ m : ℤ, carrierBest c = (m : ℚ) := by
  unfold carrierBest
  split_ifs
  · exact ⟨70, by norm_num⟩
  · exact ⟨0, by norm_num⟩

theorem heuristics_score_int (nv : NumverifyPayload) :
    ∃ m : ℤ, heuristics_score nv = (m : ℚ) := by
  obtain ⟨a, ha⟩ := lineTypeBest_int (ltOf nv)
  obtain ⟨b, hb⟩ := carrierBest_int (carrierOf nv)
  rw [heuristics_score_eq, ha, hb]
  split_ifs
  · exact ⟨min 100 (max a b + 30), by push_cast [Int.cast_max, Int.cast_min]; norm_num⟩
  · exact ⟨max a b, by push_cast [Int.cast_max]; norm_num⟩

/-! ## Lemmas about Python `round(-, 1)` -/

theorem pyRound1_intCast (m : ℤ) : pyRound1 ((m : ℚ)) = (m : ℚ) := by
  have h10 : (10 : ℚ) * (m : ℚ) = ((10 * m : ℤ) : ℚ) := by push_cast; ring
  simp only [pyRound1, pyRound1Int, h10, Int.floor_intCast, sub_self]
  norm_num

theorem pyRound1_tenth (q : ℚ) : ∃ m : ℤ, pyRound1 q = (m : ℚ) / 10 :=
  ⟨pyRound1Int q, rfl⟩

theorem pyRound1Int_bounds (q : ℚ) (h0 : 0 ≤ q) (h1 : q ≤ 100) :
    0 ≤ pyRound1Int q ∧ pyRound1Int q ≤ 1000 := by
  have hn0 : (0:ℤ) ≤ ⌊10 * q⌋ := Int.floor_nonneg.mpr (by linarith)
  have hn1 : ⌊10 * q⌋ ≤ 1000 := by
    have h := Int.floor_le_floor (α := ℚ) (show 10 * q ≤ ((1000:ℤ):ℚ) by push_cast; linarith)
    simpa using h
  have hfr : (⌊10 * q⌋ : ℚ) ≤ 10 * q := Int.floor_le _
  have hkey : ∀ hhalf : ¬ (10 * q - (⌊10 * q⌋ : ℚ) < 1/2), ⌊10 * q⌋ + 1 ≤ 1000 := by
    intro hhalf
    push_neg at hhalf
    have : (⌊10 * q⌋ : ℚ) ≤ 10 * q - 1/2 := by linarith
    have hlt : (⌊10 * q⌋ : ℚ) < 1000 := by linarith
    have : ⌊10 * q⌋ < 1000 := by exact_mod_cast hlt
    omega
  simp only [pyRound1Int]
  split_ifs with hlt hgt heven
  · exact ⟨hn0, hn1⟩
  · exact ⟨by omega, hkey hlt⟩
  · exact ⟨hn0, hn1⟩
  · exact ⟨by omega, hkey hlt⟩

theorem pyRound1_bounds (q : ℚ) (h0 : 0 ≤ q) (h1 : q ≤ 100) :
    0 ≤ pyRound1 q ∧ pyRound1 q ≤ 100 := by
  obtain ⟨hr0, hr1⟩ := pyRound1Int_bounds q h0 h1
  unfold pyRound1
  constructor
  · exact div_nonneg (by exact_mod_cast hr0) (by norm_num)
  · have : (pyRound1Int q : ℚ) ≤ 1000 := by exact_mod_cast hr1
    linarith

/-! ## Fusion lemmas, C2-C6 -/

theorem list_sum_div {α : Type} (l : List α) (f : α → ℚ) (c : ℚ) :
    (l.map (fun x => f x / c)).sum = (l.map f).sum / c := by
  induction l with
  | nil => simp
  | cons a t ih => simp [ih, add_div]

theorem weights_sum_pos (l : List Source) (hne : l ≠ [])
    (h : ∀ s ∈ l, 0 < s.weight) :
    0 < (l.map (fun v => v.weight)).sum := by
  match l with
  | a :: t =>
    simp only [List.map_cons, List.sum_cons]
    have ht : 0 ≤ (t.map (fun v => v.weight)).sum := by
      apply List.sum_nonneg
      intro x hx
      obtain ⟨v, hv, rfl⟩ := List.mem_map.mp hx
      exact le_of_lt (h v (List.mem_cons_of_mem a hv))
    have ha : 0 < a.weight := h a (List.mem_cons_self a t)
    linarith

theorem overallExpr_bounds (l : List Source) (hne : l ≠ [])
    (h : ∀ s ∈ l, 0 ≤ s.score ∧ s.score ≤ 100 ∧ 0 < s.weight) :
    0 ≤ overallExpr l ∧ overallExpr l ≤ 100 := by
  have hW : 0 < (l.map (fun v => v.weight)).sum :=
    weights_sum_pos l hne (fun s hs => (h s hs).2.2)
  have htw : totalWeight l = (l.map (fun v => v.weight)).sum := by
    unfold totalWeight
    simp only [if_neg (ne_of_gt hW)]
  constructor
  · apply List.sum_nonneg
    intro x hx
    obtain ⟨v, hv, rfl⟩ := List.mem_map.mp hx
    have := h v hv
    have h0 : (0:ℚ) < totalWeight l := htw ▸ hW
    exact mul_nonneg this.1 (div_nonneg (le_of_lt this.2.2) (le_of_lt h0))
  · have hstep : overallExpr l ≤ (l.map (fun v => 100 * (v.weight / totalWeight l))).sum := by
      apply List.sum_le_sum
      intro v hv
      have := h v hv
      have h0 : (0:ℚ) < totalWeight l := htw ▸ hW
      exact mul_le_mul_of_nonneg_right this.2.1
        (div_nonneg (le_of_lt this.2.2) (le_of_lt h0))
    have hsum : (l.map (fun v => 100 * (v.weight / totalWeight l))).sum
        = 100 * ((l.map (fun v => v.weight)).sum / totalWeight l) := by
      rw [List.sum_map_mul_left]
      congr 1
      exact list_sum_div l (fun v => v.weight) (totalWeight l)
    rw [hsum, htw, div_self (ne_of_gt hW), mul_one] at hstep
    exact hstep

/-- The empty payload scores 30 (blank line type hits the
unknown/blank rule). -/
theorem heuristics_emptyNV : heuristics_score emptyNV = 30 := by decide

/-- Claim C2: Single-source fusion is the identity: when the fraud and
tellows payloads carry no parseable numeric score and the user report
count is 0, heuristics is the only fusion source and the returned score
equals `heuristics_score` of the numverify payload exactly (the lone
weight 0.7 renormalizes to 1). -/
theorem fusion_single_source_identity (number : String)
    (numverify : Option NumverifyPayload) (fraud twilio tellows : ScoreField)
    (hf : fraud.isNum = false) (ht : tellows.isNum = false) :
    (aggregate_reputation number numverify fraud twilio tellows 0).score
      = heuristics_score (numverify.getD emptyNV) := by
  have hov : overallExpr (fusionSources numverify fraud tellows 0)
      = heuristics_score (numverify.getD emptyNV) := by
    cases fraud with
    | numeric f => simp [ScoreField.isNum] at hf
    | absent =>
      cases tellows with
      | numeric t => simp [ScoreField.isNum] at ht
      | absent => norm_num [fusionSources, overallExpr, totalWeight]
      | malformed => norm_num [fusionSources, overallExpr, totalWeight]
    | malformed =>
      cases tellows with
      | numeric t => simp [ScoreField.isNum] at ht
      | absent => norm_num [fusionSources, overallExpr, totalWeight]
      | malformed => norm_num [fusionSources, overallExpr, totalWeight]
  obtain ⟨m, hm⟩ := heuristics_score_int (numverify.getD emptyNV)
  simp only [aggregate_reputation]
  rw [hov, hm, pyRound1_intCast]

/-- Witness for C2: empty payload, placeholder fraud/tellows dicts, no
user reports; the fused score is the bare heuristic score 30. -/
theorem fusion_single_source_identity_witness :
    (aggregate_reputation "x" none .absent .absent .absent 0).score
      = heuristics_score ((none : Option NumverifyPayload).getD emptyNV) :=
  fusion_single_source_identity "x" none .absent .absent .absent rfl rfl

/-- The fused weighted mean at heuristics 30 / fraud 80 is 370/9. -/
theorem overall_30_80 (nv : Option NumverifyPayload)
    (h30 : heuristics_score (nv.getD emptyNV) = 30) :
    overallExpr (fusionSources nv (.numeric 80) .absent 0) = 370 / 9 := by
  norm_num [fusionSources, overallExpr, totalWeight, h30]

/-- Computes `round(370/9, 1) = 41.1`. -/
theorem pyRound1_370_9 : pyRound1 (370 / 9) = 411 / 10 := by
  have hfl : ⌊(10 * (370 / 9 : ℚ))⌋ = 411 := by
    rw [Int.floor_eq_iff]
    norm_num
  simp only [pyRound1, pyRound1Int, hfl]
  norm_num

/-- Claim C3 counterexample: At the claim's own inputs — heuristics 30
(empty payload) with weight 0.7 and a numeric fraud score 80 with weight
0.2 as the only sources — the fused score returned by
`aggregate_reputation` is exactly 41.1, which is not approximately 41.3:
it differs from 41.3 by 0.2, more than any 1-decimal rounding slack. -/
theorem fusion_example_counterexample :
    (aggregate_reputation "n" none (.numeric 80) .absent .absent 0).score
      = 411 / 10 ∧
    |(aggregate_reputation "n" none (.numeric 80) .absent .absent 0).score
      - 413 / 10| > 1 / 10 := by
  have h : (aggregate_reputation "n" none (.numeric 80) .absent .absent 0).score
      = 411 / 10 := by
    simp only [aggregate_reputation]
    rw [overall_30_80 none heuristics_emptyNV, pyRound1_370_9]
  refine ⟨h, ?_⟩
  rw [h, abs_sub_comm, abs_of_nonneg (by norm_num)]
  norm_num

/-- Claim C3 amended: With exactly two sources present — heuristics with
score 30 (weight 0.7) and fraudscore with score 80 (weight 0.2) — the
weights renormalize to 0.7/0.9 and 0.2/0.9, the fused score is exactly
41.1 (≈41.1, not 41.3), and the label is "suspicious". -/
theorem fusion_example_amended (number : String)
    (nv : Option NumverifyPayload)
    (h30 : heuristics_score (nv.getD emptyNV) = 30) :
    overallExpr (fusionSources nv (.numeric 80) .absent 0)
      = 30 * ((7/10) / (9/10)) + 80 * ((2/10) / (9/10)) ∧
    (aggregate_reputation number nv (.numeric 80) .absent .absent 0).score
      = 411 / 10 ∧
    (aggregate_reputation number nv (.numeric 80) .absent .absent 0).label
      = "suspicious" := by
  have hov := overall_30_80 nv h30
  have hround := pyRound1_370_9
  have hlabel : labelOf (370 / 9) = "suspicious" := by norm_num [labelOf]
  refine ⟨?_, ?_, ?_⟩
  · rw [hov]; norm_num
  · simp only [aggregate_reputation]
    rw [hov, hround]
  · simp only [aggregate_reputation]
    rw [hov, hlabel]

/-- Witness for the amended C3: the empty numverify payload has
heuristic score 30, and the fused result is (41.1, "suspicious"). -/
theorem fusion_example_amended_witness :
    (aggregate_reputation "n" none (.numeric 80) .absent .absent 0).score
        = 411 / 10 ∧
    (aggregate_reputation "n" none (.numeric 80) .absent .absent 0).label
        = "suspicious" :=
  ⟨(fusion_example_amended "n" none heuristics_emptyNV).2.1,
   (fusion_example_amended "n" none heuristics_emptyNV).2.2⟩

theorem labelRank_labelOf (x : ℚ) :
    labelRank (labelOf x) = if x ≥ 75 then 2 else if x ≥ 40 then 1 else 0 := by
  unfold labelOf
  split_ifs <;> rfl

/-- Claim C4: The label is the deterministic threshold function of the
fused score: `labelOf` is exactly what `aggregate_reputation` applies to
the fused weighted mean, with `score ≥ 75 → "spam"`,
`40 ≤ score < 75 → "suspicious"`, `score < 40 → "clean"`; it is
monotone in the score, and at the boundary scores 74.9 / 75.0 / 39.9 /
40.0 it yields suspicious / spam / clean / suspicious. -/
theorem label_thresholds :
    (∀ (number : String) (numverify : Option NumverifyPayload)
       (fraud twilio tellows : ScoreField) (urc : ℤ),
      (aggregate_reputation number numverify fraud twilio tellows urc).label
        = labelOf (overallExpr (fusionSources numverify fraud tellows urc))) ∧
    (∀ s : ℚ, 75 ≤ s → labelOf s = "spam") ∧
    (∀ s : ℚ, 40 ≤ s → s < 75 → labelOf s = "suspicious") ∧
    (∀ s : ℚ, s < 40 → labelOf s = "clean") ∧
    (∀ s t : ℚ, s ≤ t → labelRank (labelOf s) ≤ labelRank (labelOf t)) ∧
    labelOf (749/10) = "suspicious" ∧ labelOf 75 = "spam" ∧
    labelOf (399/10) = "clean" ∧ labelOf 40 = "suspicious" := by
  refine ⟨fun _ _ _ _ _ _ => rfl, ?_, ?_, ?_, ?_,
    by norm_num [labelOf], by norm_num [labelOf],
    by norm_num [labelOf], by norm_num [labelOf]⟩
  · intro s h
    simp [labelOf, h]
  · intro s h1 h2
    simp [labelOf, not_le.mpr h2, h1]
  · intro s h
    have h75 : ¬ (75 ≤ s) := not_le.mpr (lt_trans h (by norm_num))
    simp [labelOf, h75, not_le.mpr h]
  · intro s t hst
    rw [labelRank_labelOf, labelRank_labelOf]
    split_ifs <;> first | omega | linarith

/-- Witness for C4: 10 ≤ 80 is respected by the label order, and 80 is
labeled "spam"... (concrete instantiation discharging each hypothesis). -/
theorem label_thresholds_witness :
    labelOf (80:ℚ) = "spam" ∧
    labelRank (labelOf (10:ℚ)) ≤ labelRank (labelOf (80:ℚ)) ∧
    labelOf (50:ℚ) = "suspicious" ∧ labelOf (10:ℚ) = "clean" :=
  ⟨label_thresholds.2.1 80 (by norm_num),
   label_thresholds.2.2.2.2.1 10 80 (by norm_num),
   label_thresholds.2.2.1 50 (by norm_num) (by norm_num),
   label_thresholds.2.2.2.1 10 (by norm_num)⟩

/-- Claim C5: Heuristic max-combine: when the bad-prefix rule does not
fire, `heuristics_score` is exactly the max of the highest applicable
line-type score and the carrier floor (never a sum); in particular a
payload whose line type contains "premium rate" and whose carrier
contains a spam keyword scores 90 = max 90 70. -/
theorem heuristics_max_combine (nv : NumverifyPayload)
    (hpre : pyStartsWith (e164Of nv) "+91140" = false) :
    heuristics_score nv
      = max (lineTypeBest (ltOf nv)) (carrierBest (carrierOf nv)) ∧
    (strHasSub (ltOf nv) "premium rate" = true →
     (∃ kw ∈ suspicious_carrier_keywords, strHasSub (carrierOf nv) kw = true) →
     heuristics_score nv = 90) := by
  have hgen : heuristics_score nv
      = max (lineTypeBest (ltOf nv)) (carrierBest (carrierOf nv)) := by
    rw [heuristics_score_eq, hpre]
    simp
  refine ⟨hgen, fun hp hkw => ?_⟩
  have hl : lineTypeBest (ltOf nv) = 90 := by
    refine le_antisymm (lineTypeBest_le _) ?_
    have h90 : (if strHasSub (ltOf nv) "premium rate"
        || strHasSub (ltOf nv) "premium_rate" then (90:ℚ) else 0) = 90 := by
      rw [hp]
      simp
    exact le_trans (le_of_eq h90.symm) (le_max_left _ _)
  rw [hgen, hl, max_eq_left (le_trans (carrierBest_le _) (by norm_num))]

/-- Witness for C5: line type "Premium Rate", carrier "SpamTel" (spam
keyword), no bad prefix — the heuristic score is 90, not 160. -/
theorem heuristics_max_combine_witness :
    heuristics_score ⟨some "Premium Rate", some "SpamTel", none, none⟩ = 90 :=
  (heuristics_max_combine ⟨some "Premium Rate", some "SpamTel", none, none⟩
      (by decide)).2 (by decide) ⟨"spam", by decide, by decide⟩

/-- Claim C6 counterexample: The score is NOT always within [0,100]: an
out-of-range numeric fraud_score (1000) drives the fused score to 245.6,
because `aggregate_reputation` never clamps the weighted mean. -/
theorem aggregate_score_bounds_counterexample :
    100 < (aggregate_reputation "n" none (.numeric 1000) .absent .absent 0).score := by
  have hov : overallExpr (fusionSources none (.numeric 1000) .absent 0)
      = 2210 / 9 := by
    norm_num [fusionSources, overallExpr, totalWeight, heuristics_emptyNV]
  have hfl : ⌊(10 * (2210 / 9 : ℚ))⌋ = 2455 := by
    rw [Int.floor_eq_iff]
    norm_num
  have hround : pyRound1 (2210 / 9) = 2456 / 10 := by
    simp only [pyRound1, pyRound1Int, hfl]
    norm_num
  simp only [aggregate_reputation]
  rw [hov, hround]
  norm_num

/-- Claim C6 amended: For every combination of provider payloads whose
present numeric fields are in the provider ranges — fraud_score in
[0,100], tellows score in its native [1,9] — and every
user_report_count ≥ 0, the returned score lies in [0,100] and is an
integer multiple of 0.1 (rounded to 1 decimal place). -/
theorem aggregate_score_bounds (number : String)
    (numverify : Option NumverifyPayload) (fraud twilio tellows : ScoreField)
    (urc : ℤ)
    (hf : ∀ f, fraud = .numeric f → 0 ≤ f ∧ f ≤ 100)
    (ht : ∀ t, tellows = .numeric t → 1 ≤ t ∧ t ≤ 9)
    (hu : 0 ≤ urc) :
    0 ≤ (aggregate_reputation number numverify fraud twilio tellows urc).score ∧
    (aggregate_reputation number numverify fraud twilio tellows urc).score ≤ 100 ∧
    ∃ m : ℤ, (aggregate_reputation number numverify fraud twilio tellows urc).score
      = (m : ℚ) / 10 := by
  have hne : fusionSources numverify fraud tellows urc ≠ [] := by
    simp [fusionSources]
  have hmem : ∀ s ∈ fusionSources numverify fraud tellows urc,
      0 ≤ s.score ∧ s.score ≤ 100 ∧ 0 < s.weight := by
    intro s hs
    simp only [fusionSources, List.append_assoc, List.mem_append,
      List.mem_singleton] at hs
    rcases hs with h | h | h | h
    · subst h
      exact ⟨(heuristics_score_bounds _).1, (heuristics_score_bounds _).2,
        by norm_num⟩
    · cases fraud with
      | numeric f =>
        simp only [List.mem_singleton] at h
        subst h
        obtain ⟨hf1, hf2⟩ := hf f rfl
        exact ⟨hf1, hf2, by norm_num⟩
      | absent => simp at h
      | malformed => simp at h
    · cases tellows with
      | numeric t =>
        simp only [List.mem_singleton] at h
        subst h
        obtain ⟨ht1, ht2⟩ := ht t rfl
        exact ⟨by linarith, by linarith, by norm_num⟩
      | absent => simp at h
      | malformed => simp at h
    · by_cases hurc : urc > 0
      · rw [if_pos hurc] at h
        simp only [List.mem_singleton] at h
        subst h
        have h1 : (1:ℚ) ≤ (urc:ℚ) := by exact_mod_cast hurc
        refine ⟨le_min (by norm_num) ?_, le_trans (min_le_left _ _) (by norm_num),
          by norm_num⟩
        nlinarith
      · rw [if_neg hurc] at h
        simp at h
  obtain ⟨h0, h1⟩ := overallExpr_bounds _ hne hmem
  obtain ⟨hr0, hr1⟩ := pyRound1_bounds _ h0 h1
  exact ⟨hr0, hr1, pyRound1_tenth _⟩

/-- Witness for the amended C6: fraud 50, tellows 5, two user reports —
the fused score is within [0,100]. -/
theorem aggregate_score_bounds_witness :
    0 ≤ (aggregate_reputation "w" none (.numeric 50) .absent (.numeric 5) 2).score ∧
    (aggregate_reputation "w" none (.numeric 50) .absent (.numeric 5) 2).score ≤ 100 := by
  have h := aggregate_score_bounds "w" none (.numeric 50) .absent (.numeric 5) 2
    (fun f hf => by injection hf with h; subst h; norm_num)
    (fun t ht => by injection ht with h; subst h; norm_num)
    (by norm_num)
  exact ⟨h.1, h.2.1⟩

/-! ## Extraction lemmas, C7-C8 -/

theorem mem_uniqueAux (l : List String) : ∀ (seen : List String) (x : String),
    x ∈ uniqueAux seen l ↔ x ∈ l ∧ seen.contains x = false := by
  induction l with
  | nil =>
    intro seen x
    simp [uniqueAux]
  | cons n rest ih =>
    intro seen x
    simp only [uniqueAux]
    split_ifs with h
    · rw [ih seen x, List.mem_cons]
      constructor
      · rintro ⟨hx, hc⟩
        exact ⟨Or.inr hx, hc⟩
      · rintro ⟨hx | hx, hc⟩
        · rw [hx] at hc
          rw [hc] at h
          cases h
        · exact ⟨hx, hc⟩
    · rw [List.mem_cons, ih (n :: seen) x, List.mem_cons, List.contains_cons]
      constructor
      · rintro (rfl | ⟨hx, hc⟩)
        · exact ⟨Or.inl rfl, by simpa using h⟩
        · rcases Bool.or_eq_false_iff.mp hc with ⟨_, hc2⟩
          exact ⟨Or.inr hx, hc2⟩
      · rintro ⟨rfl | hx, hc⟩
        · exact Or.inl rfl
        · by_cases hxn : x = n
          · exact Or.inl hxn
          · refine Or.inr ⟨hx, ?_⟩
            rw [Bool.or_eq_false_iff]
            exact ⟨by simp [hxn], hc⟩

theorem nodup_uniqueAux (l : List String) : ∀ seen, (uniqueAux seen l).Nodup := by
  induction l with
  | nil =>
    intro seen
    simp [uniqueAux]
  | cons n rest ih =>
    intro seen
    simp only [uniqueAux]
    split_ifs with h
    · exact ih seen
    · rw [List.nodup_cons]
      refine ⟨?_, ih (n :: seen)⟩
      intro hmem
      have hcon := ((mem_uniqueAux rest (n :: seen) n).mp hmem).2
      rw [List.contains_cons] at hcon
      simp at hcon

theorem uniqueAux_sublist (l : List String) : ∀ seen,
    List.Sublist (uniqueAux seen l) l := by
  induction l with
  | nil =>
    intro seen
    simp [uniqueAux]
  | cons n rest ih =>
    intro seen
    simp only [uniqueAux]
    split_ifs with h
    · exact (ih seen).trans (List.sublist_cons_self n rest)
    · exact (ih (n :: seen)).cons₂ n

theorem uniqueAux_eq_firstSeenDedup (l : List String) : ∀ seen,
    uniqueAux seen l
      = firstSeenDedup (l.filter (fun y => !(seen.contains y))) := by
  induction l with
  | nil =>
    intro seen
    simp [uniqueAux, firstSeenDedup]
  | cons n rest ih =>
    intro seen
    simp only [uniqueAux, List.filter_cons]
    cases hcc : seen.contains n with
    | true =>
      show uniqueAux seen rest
          = firstSeenDedup (List.filter (fun y => !seen.contains y) rest)
      exact ih seen
    | false =>
      show n :: uniqueAux (n :: seen) rest
          = firstSeenDedup (n :: List.filter (fun y => !seen.contains y) rest)
      rw [firstSeenDedup, ih (n :: seen), List.filter_filter]
      congr 1
      apply congrArg
      apply List.filter_congr
      intro a ha
      rw [List.contains_cons]
      cases hyn : (a == n) <;> cases hys : seen.contains a <;> rfl

/-- Shows `extract_numbers_from_text` IS first-seen de-duplication of the
per-match results. -/
theorem extract_eq_firstSeenDedup (ms : List PNMatch) :
    extract_numbers_from_text ms = firstSeenDedup (rawResults ms) := by
  unfold extract_numbers_from_text uniquePreserveOrder
  rw [uniqueAux_eq_firstSeenDedup]
  congr 1
  simp

/-- Claim C7: Recall-favoring extraction: every matcher hit contributes
its string to the output — the E.164 form when canonicalization
succeeds, and when canonicalization fails, the raw matched substring
appears in the output in its place rather than the match being
dropped. -/
theorem extraction_fallback (ms : List PNMatch) (m : PNMatch) (hm : m ∈ ms) :
    matchResult m ∈ extract_numbers_from_text ms ∧
    (m.e164 = none → m.raw_string ∈ extract_numbers_from_text ms) := by
  have hmem : matchResult m ∈ rawResults ms := List.mem_map_of_mem matchResult hm
  have h : matchResult m ∈ extract_numbers_from_text ms := by
    unfold extract_numbers_from_text uniquePreserveOrder
    rw [mem_uniqueAux]
    exact ⟨hmem, rfl⟩
  refine ⟨h, fun he => ?_⟩
  have hr : matchResult m = m.raw_string := by simp [matchResult, he]
  rwa [hr] at h

/-- Witness for C7: a single match whose canonicalization fails still
surfaces its raw substring. -/
theorem extraction_fallback_witness :
    "12 34" ∈ extract_numbers_from_text [⟨"12 34", none⟩] :=
  (extraction_fallback [⟨"12 34", none⟩] ⟨"12 34", none⟩ (by simp)).2 rfl

/-- Claim C8: The extractor's output has no duplicate strings, is a
sublist of (hence preserves the order of) the per-match results, equals
first-seen de-duplication of those results (so two matches are merged
exactly when their resulting strings are identical), and contains a
string iff some match produced it. -/
theorem extraction_dedup_order (ms : List PNMatch) :
    (extract_numbers_from_text ms).Nodup ∧
    extract_numbers_from_text ms = firstSeenDedup (rawResults ms) ∧
    List.Sublist (extract_numbers_from_text ms) (rawResults ms) ∧
    (∀ s : String, s ∈ extract_numbers_from_text ms ↔ s ∈ rawResults ms) := by
  refine ⟨nodup_uniqueAux _ _, extract_eq_firstSeenDedup ms,
    uniqueAux_sublist _ _, fun s => ?_⟩
  unfold extract_numbers_from_text uniquePreserveOrder
  rw [mem_uniqueAux]
  simp

/-! ## Provider adapter lemmas, C9-C10 -/

/-- Claim C9: Missing configuration is a soft steady state: with no cached
entry under `"numverify:<number>"` and an empty NumVerify credential,
`call_numverify` returns its canonical unconfigured marker
`{"error": "NUMVERIFY_KEY not set"}` immediately — a value, not an
exception — without consulting the network oracle (the result is the
same for every oracle); and the placeholder adapters always return their
constant `note` markers. -/
theorem unconfigured_markers (number : String) (now : ℤ) (c : Cache NVData)
    (net : String → NetOutcome)
    (hmiss : (cache_get now c ("numverify:" ++ number)).1 = none) :
    call_numverify "" net now number c
      = (.errorDict "NUMVERIFY_KEY not set",
         (cache_get now c ("numverify:" ++ number)).2) ∧
    (∀ net2 : String → NetOutcome,
      call_numverify "" net now number c
        = call_numverify "" net2 now number c) ∧
    (∀ n, call_fraudscore n = [("note", "fraudscore_not_configured")]) ∧
    (∀ n, call_twilio_lookup n = [("note", "twilio_not_configured")]) ∧
    (∀ n, call_tellows n = [("note", "tellows_not_configured")]) := by
  have hcall : ∀ netx : String → NetOutcome,
      call_numverify "" netx now number c
        = (.errorDict "NUMVERIFY_KEY not set",
           (cache_get now c ("numverify:" ++ number)).2) := by
    intro netx
    simp only [call_numverify, hmiss]
    rfl
  exact ⟨hcall net, fun net2 => (hcall net).trans (hcall net2).symm,
    fun n => rfl, fun n => rfl, fun n => rfl⟩

/-- Witness for C9 on the empty cache with an oracle that would raise:
the marker comes back and the oracle is irrelevant. -/
theorem unconfigured_markers_witness :
    call_numverify "" (fun _ => .exn "boom") 0 "x" []
      = (.errorDict "NUMVERIFY_KEY not set",
         (cache_get 0 ([] : Cache NVData) ("numverify:" ++ "x")).2) ∧
    call_fraudscore "x" = [("note", "fraudscore_not_configured")] := by
  have h := unconfigured_markers "x" 0 [] (fun _ => .exn "boom") rfl
  exact ⟨h.1, h.2.2.1 "x"⟩

/-- A key re-read within the TTL of its `cache_set` yields the stored
value and leaves the store unchanged. -/
theorem cache_get_fresh {α : Type} (now t : ℤ) (d : Cache α) (k : String)
    (v : α) (h : ¬ (CACHE_TTL < now - t)) :
    cache_get now (cache_set t d k v) k = (some v, cache_set t d k v) := by
  simp only [cache_get, cacheLookup_set_self]
  rw [if_neg h]

/-- Claim C10: The transport-failure marker IS cached, the
missing-credential marker is NOT: when the credential is set, the cache
is cold for the number, and the network raises with message `e`,
`call_numverify` returns `{"error": e}` and writes it under
`"numverify:<number>"`; every subsequent call within `CACHE_TTL`
(whatever its credential or network oracle — the provider is not
re-contacted) returns the cached error marker and leaves the cache
unchanged.  With an empty credential the cache is never written beyond
`cache_get`'s own lazy eviction. -/
theorem error_marker_cached (numverify_key : String) (number : String)
    (now : ℤ) (c : Cache NVData) (net : String → NetOutcome) (e : String)
    (hkey : numverify_key ≠ "") (hnet : net number = .exn e)
    (hmiss : (cache_get now c ("numverify:" ++ number)).1 = none) :
    call_numverify numverify_key net now number c
      = (.errorDict e,
         cache_set now (cache_get now c ("numverify:" ++ number)).2
           ("numverify:" ++ number) (.errorDict e)) ∧
    (∀ (key2 : String) (net2 : String → NetOutcome) (now2 : ℤ),
      now2 - now ≤ CACHE_TTL →
      call_numverify key2 net2 now2 number
          (call_numverify numverify_key net now number c).2
        = (.errorDict e, (call_numverify numverify_key net now number c).2)) ∧
    (∀ (net3 : String → NetOutcome) (now3 : ℤ) (c3 : Cache NVData),
      (call_numverify "" net3 now3 number c3).2
        = (cache_get now3 c3 ("numverify:" ++ number)).2) := by
  have hfirst : call_numverify numverify_key net now number c
      = (.errorDict e,
         cache_set now (cache_get now c ("numverify:" ++ number)).2
           ("numverify:" ++ number) (.errorDict e)) := by
    simp only [call_numverify, hmiss, numverifyFetch, hnet]
    rw [if_neg (by simp [hkey])]
  refine ⟨hfirst, ?_, ?_⟩
  · intro key2 net2 now2 httl
    rw [hfirst]
    have hget := cache_get_fresh now2 now
      (cache_get now c ("numverify:" ++ number)).2 ("numverify:" ++ number)
      (NVData.errorDict e) (not_lt.mpr httl)
    simp only [call_numverify, hget]
    rfl
  · intro net3 now3 c3
    simp only [call_numverify]
    cases hres : (cache_get now3 c3 ("numverify:" ++ number)).1 with
    | none => rfl
    | some v =>
      show (if v.isTruthy = true
            then (v, (cache_get now3 c3 ("numverify:" ++ number)).2)
            else numverifyFetch "" net3 now3 number
              (cache_get now3 c3 ("numverify:" ++ number)).2).2
          = (cache_get now3 c3 ("numverify:" ++ number)).2
      by_cases hv : v.isTruthy = true
      · rw [if_pos hv]
      · rw [if_neg hv]
        rfl

/-- Witness for C10: cold cache, credential `"K"`, network raising
`"boom"`; the error marker is cached at time 0 and returned again at
time 604800 (exactly the TTL) by a call with a different credential and
a healthy network oracle. -/
theorem error_marker_cached_witness :
    call_numverify "K" (fun _ => .exn "boom") 0 "x" []
      = (.errorDict "boom",
         cache_set 0 (cache_get 0 ([] : Cache NVData) ("numverify:" ++ "x")).2
           ("numverify:" ++ "x") (.errorDict "boom")) ∧
    call_numverify "K2" (fun _ => .ok [("valid", "true")]) 604800 "x"
        (call_numverify "K" (fun _ => .exn "boom") 0 "x" []).2
      = (.errorDict "boom",
         (call_numverify "K" (fun _ => .exn "boom") 0 "x" []).2) := by
  have h := error_marker_cached "K" "x" 0 [] (fun _ => .exn "boom") "boom"
    (by decide) rfl rfl
  exact ⟨h.1, h.2.1 "K2" (fun _ => .ok [("valid", "true")]) 604800 (by decide)⟩

end PhoneOsint
